import Mathlib

/- Shallow embedding of src/app.py (Streamlit shopping-list app).

   Modelling conventions:
   * Python dicts are association lists in insertion order (keys unique in any
     state a real Python dict can take); `d[k] = v` overwrites in place when the
     key is present and appends otherwise.
   * Python sets are deduplicated lists.  Iteration order of a Python set is
     unspecified, so a deterministic order is fixed here (the order produced by
     List.dedup); it only influences the relative order of distinct items whose
     lowercased sort keys are equal.
   * `sorted(xs, key=lambda s: s.lower())` is a stable sort by the code-point
     order of the lowercased string; it is modelled by insertion sort, which is
     stable for the same total preorder.
   * `str.lower` is modelled on the ASCII range (Char.toLower), and the
     whitespace/linebreak classes are the ASCII ones, which covers the data this
     application handles.
   * File I/O is modelled by passing the parsed content of the persisted
     document as an `Option` argument (`none` = file absent/unreadable or
     of the wrong top-level type). -/

namespace App

/-- Whitespace recognised by Python's str.split()/strip() (ASCII part). -/
def is_space (c : Char) : Bool :=
  c = ' ' || c = '\t' || c = '\n' || c = '\r' || c = '\x0b' || c = '\x0c'

/-- Line-break characters for Python's str.splitlines() (ASCII part).  A "\r\n"
    pair yields an empty piece here where Python yields none, but every use
    filters empty-after-normalization pieces, so the difference is invisible. -/
def is_newline (c : Char) : Bool :=
  c = '\n' || c = '\r' || c = '\x0b' || c = '\x0c'

/-- Split a character list at every separator character: n separators give
    n+1 pieces, empty pieces included (Python str.split(sep)). -/
def split_chars (p : Char → Bool) : List Char → List (List Char)
  | [] => [[]]
  | c :: cs =>
    match split_chars p cs with
    | [] => [[]]
    | w :: ws => if p c then [] :: w :: ws else (c :: w) :: ws

/-- Python " ".join(words). -/
def join_words : List String → String
  | [] => ""
  | [w] => w
  | w :: ws => w ++ " " ++ join_words ws

/-- app.py normalize_name: `" ".join(str(name).strip().split())` — collapse
    runs of whitespace to single spaces and trim the ends. -/
def normalize_name (name : String) : String :=
  join_words (((split_chars is_space name.data).map String.mk).filter (fun w => w ≠ ""))

/-- Python str.lower() (ASCII), character by character. -/
def lower_chars (s : String) : List Char := s.data.map Char.toLower

/-- Lexicographic comparison of character lists by code point (Python string
    comparison). -/
def le_chars : List Char → List Char → Bool
  | [], _ => true
  | _ :: _, [] => false
  | a :: as, b :: bs =>
    if a.toNat < b.toNat then true
    else if b.toNat < a.toNat then false
    else le_chars as bs

/-- The key order used by `sorted(..., key=lambda s: s.lower())`. -/
def le_key (a b : String) : Prop := le_chars (lower_chars a) (lower_chars b) = true

instance : DecidableRel le_key := fun _ _ => inferInstanceAs (Decidable (_ = true))

/-- Python `sorted(xs, key=lambda s: s.lower())`: a stable sort by `le_key`. -/
def py_sorted (l : List String) : List String := List.insertionSort le_key l

/-- Python `list(set(xs))`: deduplicate (a deterministic iteration order is
    fixed; see the header comment). -/
def py_set_list (l : List String) : List String := l.dedup

/-- app.py _sorted_unique: normalize, drop empties, deduplicate, sort
    case-insensitively. -/
def _sorted_unique (items : List String) : List String :=
  py_sorted (py_set_list ((items.map normalize_name).filter (fun x => x ≠ "")))

/-- Python dict lookup `d.get(k)` on an insertion-ordered association list. -/
def dget {α : Type} : List (String × α) → String → Option α
  | [], _ => none
  | p :: m, k => if p.1 = k then some p.2 else dget m k

/-- Python `k in d`. -/
def dmem {α : Type} (m : List (String × α)) (k : String) : Bool := (dget m k).isSome

/-- Python `d[k] = v`: overwrite in place when the key is present, else append. -/
def dset {α : Type} (m : List (String × α)) (k : String) (v : α) : List (String × α) :=
  if dmem m k then m.map (fun p => if p.1 = k then (k, v) else p) else m ++ [(k, v)]

/-- Python `d.setdefault(k, v)`. -/
def setdefault {α : Type} (m : List (String × α)) (k : String) (v : α) : List (String × α) :=
  if dmem m k then m else m ++ [(k, v)]

/-- Python `del d[k]` (keys are unique in a Python dict, so erasing the first
    binding is faithful). -/
def ddel {α : Type} (m : List (String × α)) (k : String) : List (String × α) :=
  m.eraseP (fun p => p.1 == k)

/-- Python `list(d.keys())`. -/
def dkeys {α : Type} (m : List (String × α)) : List String := m.map Prod.fst

/-- category name → item list (one store's categories). -/
abbrev CatMap := List (String × List String)

/-- store name → categories (the whole catalog). -/
abbrev Catalog := List (String × CatMap)

/-- Session selection: store → category → chosen item names. -/
abbrev Selection := List (String × List (String × List String))

/-- app.py DEFAULT_STORES. -/
def DEFAULT_STORES : Catalog :=
  [("Costco",
     [("Bakery", ["Bread", "Ritz Crackers"]),
      ("Dairy", ["Eggs", "Milk", "Cheese", "Butter", "Dahi"]),
      ("Meat & Frozen", ["Chicken", "Chicken nuggets"]),
      ("Pantry & Snacks", ["Chips", "Juice", "Nuts", "Cooking oil"]),
      ("Household", ["Toilet Paper", "Paper Towel"])]),
   ("Walmart",
     [("Pantry", ["Tortillas", "Beans", "Pasta Noodles", "Sauces", "Sugar"]),
      ("Dairy", ["Sour cream"]),
      ("Produce", ["Veggies", "Fruits", "Tomato", "Potato", "Bell peppers", "Onion"])]),
   ("Indian Store",
     [("Staples", ["Rice", "Daal", "Pulses"]),
      ("Spices", ["Masalas"]),
      ("Convenience", ["Maggie noodles", "Mango pulp"])]),
   ("Marianos",
     [("Uncategorized", [])])]

/-- app.py DEFAULT_STORE_ORDER. -/
def DEFAULT_STORE_ORDER : List String := ["Costco", "Walmart", "Indian Store", "Marianos"]

/-- app.py CHECKBOX_BULLET (the WhatsApp checkbox glyph). -/
def CHECKBOX_BULLET : String := "☐"

/-- app.py UNDERLINE_CHAR as a character (the Python constant is the
    one-character string "—"; `UNDERLINE_CHAR * n` repeats the character). -/
def UNDERLINE_CHAR : Char := '—'

/-- A JSON value sitting under a store key in the persisted catalog document,
    as convert_legacy_shape case-splits on it: a flat list of items (each
    already coerced by str), a nested map whose values may or may not be lists,
    or anything else. -/
inductive Payload where
  | plist (items : List String)
  | pdict (cats : List (String × Option (List String)))
  | pother

/-- app.py convert_legacy_shape: normalize either legacy shape into the
    canonical store→category→items map. -/
def convert_legacy_shape (data : List (String × Payload)) : Catalog :=
  data.foldl
    (fun converted sp =>
      let store_name := normalize_name sp.1
      if store_name = "" then converted
      else
        match sp.2 with
        | .plist items => dset converted store_name [("Uncategorized", _sorted_unique items)]
        | .pdict cats =>
            let cat_map := cats.foldl
              (fun cm cp =>
                let cat_name := if normalize_name cp.1 = "" then "Uncategorized" else normalize_name cp.1
                match cp.2 with
                | some items => dset cm cat_name (_sorted_unique items)
                | none => cm) []
            let cat_map := if cat_map.isEmpty then [("Uncategorized", [])] else cat_map
            dset converted store_name cat_map
        | .pother => dset converted store_name [("Uncategorized", [])])
    []

/-- app.py load_stores.  `raw = none` models a missing/unreadable data file or
    one whose top level is not a dict; otherwise `raw` is the parsed document. -/
def load_stores (raw : Option (List (String × Payload))) : Catalog :=
  match raw with
  | some data =>
      let cleaned := convert_legacy_shape data
      if cleaned.isEmpty then DEFAULT_STORES else cleaned
  | none => DEFAULT_STORES

/-- app.py add_store. -/
def add_store (stores : Catalog) (store_name : String) : Catalog :=
  let sname := normalize_name store_name
  if sname ≠ "" ∧ ¬ dmem stores sname then dset stores sname [("Uncategorized", [])]
  else stores

/-- app.py add_category. -/
def add_category (stores : Catalog) (store_name category_name : String) : Catalog :=
  let sname := normalize_name store_name
  let cname := if normalize_name category_name = "" then "Uncategorized" else normalize_name category_name
  match dget stores sname with
  | some cm => if dmem cm cname then stores else dset stores sname (cm ++ [(cname, [])])
  | none => stores

/-- app.py add_items lines 177–179: replace newlines by commas, split on
    commas, normalize each piece, drop empty pieces. -/
def split_items (items_text : String) : List String :=
  let raw := items_text.data.map (fun c => if c = '\n' then ',' else c)
  (((split_chars (fun c => c = ',') raw).map String.mk).map normalize_name).filter
    (fun x => x ≠ "")

/-- app.py add_items. -/
def add_items (stores : Catalog) (store_name category_name items_text : String) : Catalog :=
  let sname := normalize_name store_name
  let cname := if normalize_name category_name = "" then "Uncategorized" else normalize_name category_name
  match dget stores sname with
  | none => stores
  | some cm0 =>
      let cm := if dmem cm0 cname then cm0 else cm0 ++ [(cname, [])]
      let existing := (dget cm cname).getD []
      let merged := py_set_list (existing ++ split_items items_text)
      dset stores sname (dset cm cname (py_sorted merged))

/-- app.py remove_item (no name normalization in the source). -/
def remove_item (stores : Catalog) (store_name category_name item : String) : Catalog :=
  match dget stores store_name with
  | some cm =>
      match dget cm category_name with
      | some items =>
          dset stores store_name (dset cm category_name (items.filter (fun x => x ≠ item)))
      | none => stores
  | none => stores

/-- app.py remove_category (no name normalization in the source). -/
def remove_category (stores : Catalog) (store_name category_name : String) : Catalog :=
  match dget stores store_name with
  | some cm =>
      if dmem cm category_name then
        if cm.length > 1 then dset stores store_name (ddel cm category_name)
        else dset stores store_name [("Uncategorized", [])]
      else stores
  | none => stores

/-- app.py remove_store. -/
def remove_store (stores : Catalog) (store_name : String) : Catalog :=
  if dmem stores store_name then ddel stores store_name else stores

/-- One pass of "append s if not already present", shared by the order and
    display-order loops of app.py. -/
def append_unique (acc : List String) (l : List String) : List String :=
  l.foldl (fun out s => if s ∈ out then out else out ++ [s]) acc

/-- app.py load_store_order.  `meta_order = none` models a missing/unreadable
    meta file or one without a list under "store_order"; otherwise it is the
    raw persisted list. -/
def load_store_order (meta_order : Option (List String)) (stores : Catalog) : List String :=
  let order0 :=
    match meta_order with
    | some xs => (xs.map normalize_name).filter (fun x => x ≠ "")
    | none => []
  let order1 := if order0.isEmpty then DEFAULT_STORE_ORDER else order0
  let order2 := order1.filter (fun s => dmem stores s)
  append_unique order2 (py_sorted (dkeys stores))

/-- app.py parse_store_order_text. -/
def parse_store_order_text (text : String) (stores : Catalog) : List String :=
  let lines := ((split_chars is_newline text.data).map String.mk).map normalize_name
  let lines := lines.filter (fun x => x ≠ "" ∧ dmem stores x)
  append_unique (append_unique [] lines) (py_sorted (dkeys stores))

/-- app.py ordered_stores: visit order first, then the rest alphabetically. -/
def ordered_stores {α : Type} (store_order : List String) (stores : List (String × α)) :
    List String :=
  let out := store_order.foldl
    (fun out s => if dmem stores s ∧ s ∉ out then out ++ [s] else out) []
  append_unique out (py_sorted (dkeys stores))

/-- Python `UNDERLINE_CHAR * max(6, min(22, len(store) + 2))`. -/
def underline_for (store : String) : String :=
  ⟨List.replicate (max 6 (min 22 (store.length + 2))) UNDERLINE_CHAR⟩

/-- The `all_items.extend(cat_map[cat])` loop of the formatter: flatten one
    store's items across its categories. -/
def flatten_store (cat_map : CatMap) : List String :=
  cat_map.foldl (fun acc p => acc ++ p.2) []

/-- The lines the formatter emits for one store: nothing when the cleaned
    flattened item list is empty, else header, underline, one bullet per item,
    and a trailing blank line.  The clean-up performed inline in the source
    (normalize, drop empties, set(), sort by lowercase) is exactly
    _sorted_unique. -/
def store_block (store : String) (cat_map : CatMap) : List String :=
  let all_items := _sorted_unique (flatten_store cat_map)
  if all_items = [] then []
  else
    (("*" ++ store ++ "*") :: underline_for store ::
      all_items.map (fun it => CHECKBOX_BULLET ++ " " ++ it)) ++ [""]

/-- app.py format_shopping_list_for_whatsapp, as the list of lines before
    joining.  `today` stands for date.today().strftime("%b %d, %Y"). -/
def format_lines (selected : Selection) (store_order : List String) (today : String) :
    List String :=
  ("Shopping List - " ++ today) :: "" ::
    ((ordered_stores store_order selected).map
      (fun store => store_block store ((dget selected store).getD []))).flatten

/-- app.py format_shopping_list_for_whatsapp: joined lines, trimmed. -/
def format_shopping_list_for_whatsapp (selected : Selection) (store_order : List String)
    (today : String) : String :=
  ("\n".intercalate (format_lines selected store_order today)).trim

/-- The category part of the module-level selection reconciliation
    (app.py lines 380–384) for one store: give every catalog category an entry,
    then delete selection categories absent from the catalog. -/
def reconcile_cats (sel_cm : List (String × List String)) (cat_cm : CatMap) :
    List (String × List String) :=
  let cm1 := cat_cm.foldl (fun acc p => setdefault acc p.1 []) sel_cm
  cm1.filter (fun p => dmem cat_cm p.1)

/-- The module-level selection reconciliation block (app.py lines 375–384):
    drop selection stores absent from the catalog, then give every catalog
    store an entry and reconcile its categories. -/
def reconcile_selection (selected : Selection) (stores : Catalog) : Selection :=
  let sel1 := selected.filter (fun p => dmem stores p.1)
  stores.foldl
    (fun sel sp =>
      let sel := setdefault sel sp.1 []
      dset sel sp.1 (reconcile_cats ((dget sel sp.1).getD []) sp.2))
    sel1

example : normalize_name "  Eggs " = "Eggs" := by decide
example : normalize_name "a\t b\n c" = "a b c" := by decide
example : _sorted_unique ["Milk", "milk", "  Eggs "] = ["Eggs", "Milk", "milk"] := by decide
example : dset [("a", 1), ("b", 2)] "a" 7 = [("a", 7), ("b", 2)] := by decide
example : dset [("a", 1)] "b" 2 = [("a", 1), ("b", 2)] := by decide
example : ddel [("a", 1), ("b", 2)] "a" = [("b", 2)] := by decide

example :
    convert_legacy_shape [("Costco", Payload.pdict [("Dairy", some ["Milk", "milk", "  Eggs "])])]
      = [("Costco", [("Dairy", ["Eggs", "Milk", "milk"])])] := by decide

example :
    remove_category [("S", [("Dairy", ["Milk"])])] "S" "Dairy"
      = [("S", [("Uncategorized", [])])] := by decide

example :
    load_store_order none [("Zed", [("Uncategorized", [])]), ("Alpha", [("Uncategorized", [])])]
      = ["Alpha", "Zed"] := by decide

example :
    parse_store_order_text "junk\nWalmart\n Costco \nWalmart"
      [("Costco", []), ("Walmart", []), ("Aldi", [])]
      = ["Walmart", "Costco", "Aldi"] := by decide

example :
    format_lines [("Costco", [("Dairy", ["Milk"])]), ("Walmart", [("Produce", [])])]
      ["Walmart", "Costco"] "Feb 21, 2026"
      = ["Shopping List - Feb 21, 2026", "", "*Costco*", underline_for "Costco",
         CHECKBOX_BULLET ++ " Milk", ""] := by decide

example :
    reconcile_selection [("Gone", [("C", ["x"])]), ("S", [("C", ["Ghost"]), ("Old", ["y"])])]
      [("S", [("C", []), ("New", ["a"])]), ("T", [("D", ["b"])])]
      = [("S", [("C", ["Ghost"]), ("New", [])]), ("T", [("D", [])])] := by decide

example :
    add_items [("S", [("C", ["Milk"])])] "S" "C" "Eggs, milk\n milk ,"
      = [("S", [("C", ["Eggs", "Milk", "milk"])])] := by decide

/-! Properties of the sort-key order. -/

theorem le_chars_total : ∀ a b : List Char, le_chars a b = true ∨ le_chars b a = true
  | [], _ => Or.inl rfl
  | _ :: _, [] => Or.inr rfl
  | a :: as, b :: bs => by
    simp only [le_chars]
    rcases Nat.lt_trichotomy a.toNat b.toNat with h | h | h
    · simp [h]
    · rw [h]
      simp only [Nat.lt_irrefl, if_false]
      exact le_chars_total as bs
    · simp [h]

theorem le_chars_trans :
    ∀ a b c : List Char, le_chars a b = true → le_chars b c = true → le_chars a c = true
  | [], _, _ => by intro _ _; rfl
  | _ :: _, [], _ => by intro h _; simp [le_chars] at h
  | _ :: _, _ :: _, [] => by intro _ h; simp [le_chars] at h
  | a :: as, b :: bs, c :: cs => by
    simp only [le_chars]
    intro h1 h2
    by_cases hab : a.toNat < b.toNat
    · by_cases hbc : b.toNat < c.toNat
      · simp [Nat.lt_trans hab hbc]
      · by_cases hcb : c.toNat < b.toNat
        · rw [if_neg hbc, if_pos hcb] at h2
          exact Bool.noConfusion h2
        · have hac : a.toNat < c.toNat := by omega
          simp [hac]
    · by_cases hba : b.toNat < a.toNat
      · rw [if_neg hab, if_pos hba] at h1
        exact Bool.noConfusion h1
      · by_cases hbc : b.toNat < c.toNat
        · have hac : a.toNat < c.toNat := by omega
          simp [hac]
        · by_cases hcb : c.toNat < b.toNat
          · rw [if_neg hbc, if_pos hcb] at h2
            exact Bool.noConfusion h2
          · have hac : ¬ a.toNat < c.toNat := by omega
            have hca : ¬ c.toNat < a.toNat := by omega
            rw [if_neg hab, if_neg hba] at h1
            rw [if_neg hbc, if_neg hcb] at h2
            rw [if_neg hac, if_neg hca]
            exact le_chars_trans as bs cs h1 h2

instance : IsTotal String le_key :=
  ⟨fun a b => le_chars_total (lower_chars a) (lower_chars b)⟩

instance : IsTrans String le_key :=
  ⟨fun a b c => le_chars_trans (lower_chars a) (lower_chars b) (lower_chars c)⟩

theorem py_sorted_perm (l : List String) : List.Perm (py_sorted l) l :=
  List.perm_insertionSort le_key l

theorem py_sorted_sorted (l : List String) : (py_sorted l).Sorted le_key :=
  List.sorted_insertionSort le_key l

theorem mem_py_sorted {x : String} {l : List String} : x ∈ py_sorted l ↔ x ∈ l :=
  (py_sorted_perm l).mem_iff

theorem mem_sorted_unique {x : String} {l : List String} :
    x ∈ _sorted_unique l ↔ x ∈ l.map normalize_name ∧ x ≠ "" := by
  simp [_sorted_unique, py_set_list, mem_py_sorted, List.mem_dedup, List.mem_filter]

theorem nodup_sorted_unique (l : List String) : (_sorted_unique l).Nodup :=
  (py_sorted_perm _).nodup_iff.mpr (List.nodup_dedup _)

theorem sorted_sorted_unique (l : List String) : (_sorted_unique l).Sorted le_key :=
  py_sorted_sorted _

/-! Association-list (Python dict) lemmas. -/

theorem dget_append {α : Type} (m m' : List (String × α)) (k : String) :
    dget (m ++ m') k = (dget m k).or (dget m' k) := by
  induction m with
  | nil => simp [dget]
  | cons p m ih => by_cases h : p.1 = k <;> simp [dget, h, ih]

theorem dget_map_update {α : Type} (m : List (String × α)) (k : String) (v : α)
    (h : dmem m k = true) :
    dget (m.map (fun p => if p.1 = k then (k, v) else p)) k = some v := by
  induction m with
  | nil => simp [dmem, dget] at h
  | cons p m ih =>
    by_cases hp : p.1 = k
    · simp [dget, hp]
    · have hm : dmem m k = true := by simpa [dmem, dget, hp] using h
      simp [dget, hp, ih hm]

theorem dget_map_update_ne {α : Type} (m : List (String × α)) (k k' : String) (v : α)
    (h : k' ≠ k) :
    dget (m.map (fun p => if p.1 = k then (k, v) else p)) k' = dget m k' := by
  induction m with
  | nil => rfl
  | cons p m ih =>
    by_cases hp : p.1 = k
    · simp [dget, hp, Ne.symm h, ih]
    · simp [dget, hp, ih]

theorem dget_eq_none_of_not_dmem {α : Type} {m : List (String × α)} {k : String}
    (h : ¬ dmem m k = true) : dget m k = none := by
  cases hg : dget m k with
  | none => rfl
  | some w => exact absurd (by simp [dmem, hg]) h

theorem dget_dset_self {α : Type} (m : List (String × α)) (k : String) (v : α) :
    dget (dset m k v) k = some v := by
  by_cases h : dmem m k = true
  · simp only [dset, h, if_true]
    exact dget_map_update m k v h
  · simp [dset, h, dget_append, dget_eq_none_of_not_dmem h, dget]

theorem dget_dset_ne {α : Type} (m : List (String × α)) (k k' : String) (v : α)
    (h : k' ≠ k) : dget (dset m k v) k' = dget m k' := by
  by_cases hm : dmem m k = true
  · simp only [dset, hm, if_true]
    exact dget_map_update_ne m k k' v h
  · simp [dset, hm, dget_append, dget, Ne.symm h]

theorem dget_setdefault_self {α : Type} (m : List (String × α)) (k : String) (v : α) :
    dget (setdefault m k v) k = some ((dget m k).getD v) := by
  by_cases hm : dmem m k = true
  · obtain ⟨w, hw⟩ := Option.isSome_iff_exists.mp hm
    simp [setdefault, hm, hw]
  · simp [setdefault, hm, dget_append, dget_eq_none_of_not_dmem hm, dget]

theorem dget_setdefault_ne {α : Type} (m : List (String × α)) (k k' : String) (v : α)
    (h : k' ≠ k) : dget (setdefault m k v) k' = dget m k' := by
  by_cases hm : dmem m k = true
  · simp [setdefault, hm]
  · simp [setdefault, hm, dget_append, dget, Ne.symm h]

theorem dget_filter_key {α : Type} (m : List (String × α)) (q : String → Bool) (k : String) :
    dget (m.filter (fun p => q p.1)) k = if q k = true then dget m k else none := by
  induction m with
  | nil => simp [dget]
  | cons p m ih =>
    by_cases hp : p.1 = k
    · subst hp
      by_cases hq : q p.1 = true <;> simp [List.filter_cons, hq, dget, ih]
    · by_cases hq : q p.1 = true <;> simp [List.filter_cons, hq, dget, hp, ih]

theorem mem_dset {α : Type} {m : List (String × α)} {k : String} {v : α} {p : String × α}
    (h : p ∈ dset m k v) : p ∈ m ∨ p = (k, v) := by
  by_cases hm : dmem m k = true
  · simp only [dset, hm, if_true] at h
    obtain ⟨q, hq, hqe⟩ := List.mem_map.mp h
    by_cases hqk : q.1 = k
    · right; rw [if_pos hqk] at hqe; exact hqe.symm
    · left; rw [if_neg hqk] at hqe; exact hqe ▸ hq
  · simp only [dset, hm, if_false, Bool.false_eq_true] at h
    rcases List.mem_append.mp h with h | h
    · exact Or.inl h
    · right; simpa using h

theorem dmem_iff_mem_dkeys {α : Type} {m : List (String × α)} {k : String} :
    dmem m k = true ↔ k ∈ dkeys m := by
  induction m with
  | nil => simp [dmem, dget, dkeys]
  | cons p m ih =>
    by_cases hp : p.1 = k
    · simp [dmem, dget, dkeys, hp]
    · simp only [dmem, dget, dkeys, List.map_cons, List.mem_cons, if_neg hp]
      rw [← dkeys, ← dmem, ih]
      constructor
      · exact fun h => Or.inr h
      · rintro (h | h)
        · exact absurd h.symm hp
        · exact h

theorem dget_eq_some_of_mem {α : Type} {m : List (String × α)} {k : String} {v : α}
    (hn : (dkeys m).Nodup) (h : (k, v) ∈ m) : dget m k = some v := by
  induction m with
  | nil => cases h
  | cons p m ih =>
    rcases List.mem_cons.mp h with h | h
    · rw [← h]; simp [dget]
    · have hp : p.1 ≠ k := by
        intro e
        have : k ∈ dkeys m := List.mem_map.mpr ⟨(k, v), h, rfl⟩
        exact (List.nodup_cons.mp hn).1 (e ▸ this)
      simp only [dget, if_neg hp]
      exact ih (List.nodup_cons.mp hn).2 h

theorem mem_of_dget_eq_some {α : Type} {m : List (String × α)} {k : String} {v : α}
    (h : dget m k = some v) : (k, v) ∈ m := by
  induction m with
  | nil => cases h
  | cons p m ih =>
    by_cases hp : p.1 = k
    · simp only [dget, if_pos hp] at h
      rw [List.mem_cons]
      left
      exact (Prod.ext hp (Option.some.inj h)).symm
    · simp only [dget, if_neg hp] at h
      exact List.mem_cons_of_mem _ (ih h)

theorem dset_ne_nil {α : Type} (m : List (String × α)) (k : String) (v : α) :
    dset m k v ≠ [] := by
  by_cases hm : dmem m k = true
  · cases m with
    | nil => simp [dmem, dget] at hm
    | cons p m => simp [dset, hm]
  · simp [dset, hm]

theorem eraseP_ne_nil {α : Type} (l : List α) (q : α → Bool) (h : 1 < l.length) :
    l.eraseP q ≠ [] := by
  cases l with
  | nil => simp at h
  | cons a t =>
    by_cases hq : q a = true
    · rw [List.eraseP_cons_of_pos hq]
      have : 0 < t.length := by simpa using Nat.lt_of_succ_lt_succ (by simpa using h)
      exact List.ne_nil_of_length_pos this
    · rw [List.eraseP_cons_of_neg hq]
      simp

/-! Lemmas about the append-if-missing folds. -/

theorem mem_append_unique {x : String} :
    ∀ (l acc : List String), x ∈ append_unique acc l ↔ x ∈ acc ∨ x ∈ l
  | [], acc => by simp [append_unique]
  | s :: l, acc => by
    simp only [append_unique, List.foldl_cons]
    by_cases hs : s ∈ acc
    · rw [if_pos hs]
      rw [show l.foldl (fun out s => if s ∈ out then out else out ++ [s]) acc
            = append_unique acc l from rfl]
      rw [mem_append_unique l acc]
      constructor
      · rintro (h | h)
        · exact Or.inl h
        · exact Or.inr (List.mem_cons_of_mem _ h)
      · rintro (h | h)
        · exact Or.inl h
        · rcases List.mem_cons.mp h with rfl | h
          · exact Or.inl hs
          · exact Or.inr h
    · rw [if_neg hs]
      rw [show l.foldl (fun out s => if s ∈ out then out else out ++ [s]) (acc ++ [s])
            = append_unique (acc ++ [s]) l from rfl]
      rw [mem_append_unique l (acc ++ [s])]
      simp [List.mem_append, List.mem_cons, or_assoc]

theorem nodup_append_unique :
    ∀ (l acc : List String), acc.Nodup → (append_unique acc l).Nodup
  | [], _, h => h
  | s :: l, acc, h => by
    simp only [append_unique, List.foldl_cons]
    by_cases hs : s ∈ acc
    · rw [if_pos hs]
      exact nodup_append_unique l acc h
    · rw [if_neg hs]
      refine nodup_append_unique l (acc ++ [s]) ?_
      simp [List.nodup_append, h, hs]

theorem append_unique_eq_append_filter :
    ∀ (l acc : List String), l.Nodup →
      append_unique acc l = acc ++ l.filter (fun x => x ∉ acc)
  | [], acc, _ => by simp [append_unique]
  | s :: l, acc, h => by
    obtain ⟨hs_not, hl⟩ := List.nodup_cons.mp h
    simp only [append_unique, List.foldl_cons]
    by_cases hs : s ∈ acc
    · rw [if_pos hs]
      rw [show l.foldl (fun out s => if s ∈ out then out else out ++ [s]) acc
            = append_unique acc l from rfl]
      rw [append_unique_eq_append_filter l acc hl]
      simp [List.filter_cons, hs]
    · rw [if_neg hs]
      rw [show l.foldl (fun out s => if s ∈ out then out else out ++ [s]) (acc ++ [s])
            = append_unique (acc ++ [s]) l from rfl]
      rw [append_unique_eq_append_filter l (acc ++ [s]) hl]
      have hfil : l.filter (fun x => decide (x ∉ acc ++ [s]))
          = l.filter (fun x => decide (x ∉ acc)) := by
        apply List.filter_congr
        intro a ha
        have hne : a ≠ s := fun e => hs_not (e ▸ ha)
        simp [List.mem_append, hne]
      simp only [List.filter_cons, hs, decide_not]
      rw [List.append_assoc]
      congr 1
      simp only [List.singleton_append]
      rw [show (fun x => !decide (x ∈ acc ++ [s])) = (fun x => decide (x ∉ acc ++ [s])) by
            funext x; simp [decide_not]]
      rw [show (fun x => !decide (x ∈ acc)) = (fun x => decide (x ∉ acc)) by
            funext x; simp [decide_not]]
      rw [hfil]
      simp [hs]

theorem mem_flatten_store {x : String} {cm : CatMap} :
    x ∈ flatten_store cm ↔ ∃ p ∈ cm, x ∈ p.2 := by
  have aux : ∀ (l : List (String × List String)) (acc : List String),
      x ∈ l.foldl (fun acc p => acc ++ p.2) acc ↔ x ∈ acc ∨ ∃ p ∈ l, x ∈ p.2 := by
    intro l
    induction l with
    | nil => simp
    | cons q l ih =>
      intro acc
      simp only [List.foldl_cons, ih (acc ++ q.2), List.mem_append, List.mem_cons]
      constructor
      · rintro ((h | h) | h)
        · exact Or.inl h
        · exact Or.inr ⟨q, Or.inl rfl, h⟩
        · obtain ⟨p, hp, hx⟩ := h
          exact Or.inr ⟨p, Or.inr hp, hx⟩
      · rintro (h | ⟨p, rfl | hp, hx⟩)
        · exact Or.inl (Or.inl h)
        · exact Or.inl (Or.inr hx)
        · exact Or.inr ⟨p, hp, hx⟩
  simpa using aux cm []

theorem mem_ordered_stores {α : Type} {stores : List (String × α)} {s : String}
    (h : dmem stores s = true) (store_order : List String) :
    s ∈ ordered_stores store_order stores := by
  unfold ordered_stores
  rw [mem_append_unique]
  right
  rw [mem_py_sorted]
  exact dmem_iff_mem_dkeys.mp h

theorem mem_of_mem_ordered_stores {α : Type} {stores : List (String × α)} {s : String}
    {store_order : List String} (h : s ∈ ordered_stores store_order stores) :
    dmem stores s = true := by
  unfold ordered_stores at h
  rw [mem_append_unique] at h
  rcases h with h | h
  · -- s came out of the first (visit-order) loop, which only adds members
    have aux : ∀ (l : List String) (acc : List String),
        (∀ x ∈ acc, dmem stores x = true) →
        ∀ x ∈ l.foldl (fun out t => if dmem stores t ∧ t ∉ out then out ++ [t] else out) acc,
          dmem stores x = true := by
      intro l
      induction l with
      | nil => intro acc hacc x hx; exact hacc x hx
      | cons t l ih =>
        intro acc hacc x hx
        simp only [List.foldl_cons] at hx
        by_cases ht : dmem stores t = true ∧ t ∉ acc
        · rw [if_pos ht] at hx
          refine ih (acc ++ [t]) ?_ x hx
          intro y hy
          rcases List.mem_append.mp hy with hy | hy
          · exact hacc y hy
          · rw [List.mem_singleton.mp hy]
            exact ht.1
        · rw [if_neg ht] at hx
          exact ih acc hacc x hx
    exact aux store_order [] (by intro x hx; cases hx) s h
  · rw [mem_py_sorted] at h
    exact dmem_iff_mem_dkeys.mpr h

/-- Reading one category's item list out of a catalog (stores[s][c], with
    Python's "missing key" giving the empty list). -/
def category_items (stores : Catalog) (s c : String) : List String :=
  (dget ((dget stores s).getD []) c).getD []

/-- "Every store has at least one category": each store key maps to a
    nonempty category list. -/
def store_inv (m : Catalog) : Prop := ∀ p ∈ m, p.2 ≠ []

instance (m : Catalog) : Decidable (store_inv m) :=
  inferInstanceAs (Decidable (∀ p ∈ m, p.2 ≠ []))

theorem store_inv_dset {m : Catalog} {k : String} {v : CatMap}
    (h : store_inv m) (hv : v ≠ []) : store_inv (dset m k v) := by
  intro p hp
  rcases mem_dset hp with hp | rfl
  · exact h p hp
  · exact hv

theorem store_inv_foldl {β : Type} (f : Catalog → β → Catalog)
    (hf : ∀ acc b, store_inv acc → store_inv (f acc b)) :
    ∀ (l : List β) (acc : Catalog), store_inv acc → store_inv (l.foldl f acc)
  | [], _, h => h
  | b :: l, acc, h => store_inv_foldl f hf l (f acc b) (hf acc b h)

/-! Claim C1. -/

/-- C1 counterexample: on the catalog {"S": {"Dairy": ["Milk"]}}, removing the
    only category "Dairy" does NOT keep the category itself — the store's
    category map becomes {"Uncategorized": []}, and "Dairy" is gone. -/
theorem C1_counterexample :
    remove_category [("S", [("Dairy", ["Milk"])])] "S" "Dairy"
        = [("S", [("Uncategorized", [])])]
    ∧ dget ((dget (remove_category [("S", [("Dairy", ["Milk"])])] "S" "Dairy") "S").getD [])
        "Dairy" = none := by decide

/-- C1 (amended): for every catalog in which the named store exists and the
    named category is that store's only category, removeCategory replaces the
    store's category map by the single category "Uncategorized" with an empty
    item list (so the removed category's own name survives only when it is
    itself "Uncategorized"); the store afterwards has exactly one category,
    with an empty item list, and never zero categories. -/
theorem C1_amended_only_category_reset (stores : Catalog) (s c : String)
    (items : List String) (h : dget stores s = some [(c, items)]) :
    dget (remove_category stores s c) s = some [("Uncategorized", [])] := by
  unfold remove_category
  rw [h]
  have hm : dmem [(c, items)] c = true := by simp [dmem, dget]
  simp only [hm, if_true, List.length_singleton, gt_iff_lt, lt_self_iff_false, if_false]
  exact dget_dset_self stores s _

/-- C1 amended theorem, applied at a concrete input. -/
theorem C1_amended_witness :
    dget (remove_category [("S", [("Dairy", ["Milk"])])] "S" "Dairy") "S"
      = some [("Uncategorized", [])] :=
  C1_amended_only_category_reset [("S", [("Dairy", ["Milk"])])] "S" "Dairy" ["Milk"] (by decide)

/-! Claim C2. -/

/-- C2 counterexample: loading {"Costco": {"Dairy": ["Milk","milk","  Eggs "]}}
    leaves THREE items in Dairy — deduplication is case-sensitive after
    normalization, so "Milk" and "milk" both survive — not exactly the two
    items ["Eggs","Milk"]. -/
theorem C2_counterexample :
    (dget ((dget (load_stores (some
          [("Costco", Payload.pdict [("Dairy", some ["Milk", "milk", "  Eggs "])])]))
          "Costco").getD []) "Dairy").getD []
        = ["Eggs", "Milk", "milk"]
    ∧ ("milk" ∈ (["Eggs", "Milk", "milk"] : List String)
        ∧ "milk" ∉ (["Eggs", "Milk"] : List String)) := by decide

/-- C2 (amended): loading the persisted catalog document
    {"Costco": {"Dairy": ["Milk","milk","  Eggs "]}} yields a catalog in which
    the Dairy category of Costco contains exactly the three items
    ["Eggs","Milk","milk"]: pieces are normalized (whitespace only, case kept),
    deduplicated case-sensitively (so both spellings of milk survive), and
    sorted case-insensitively. -/
theorem C2_amended_load_scenario :
    load_stores (some [("Costco", Payload.pdict [("Dairy", some ["Milk", "milk", "  Eggs "])])])
      = [("Costco", [("Dairy", ["Eggs", "Milk", "milk"])])] := by decide

/-! Claim C5. -/

/-- C5: for every input text and every catalog, parseFromText returns a
    permutation of exactly the catalog's store names — every store exactly
    once and nothing else, however malformed the input lines are. -/
theorem C5_parse_store_order_perm (text : String) (stores : Catalog)
    (h : (dkeys stores).Nodup) :
    List.Perm (parse_store_order_text text stores) (dkeys stores) := by
  unfold parse_store_order_text
  have hout1 : ∀ x, x ∈ append_unique []
      ((((split_chars is_newline text.data).map String.mk).map normalize_name).filter
        (fun x => x ≠ "" ∧ dmem stores x)) → x ∈ dkeys stores := by
    intro x hx
    rw [mem_append_unique] at hx
    rcases hx with hx | hx
    · cases hx
    · have := (List.mem_filter.mp hx).2
      simp only [decide_eq_true_eq] at this
      exact dmem_iff_mem_dkeys.mp this.2
  have hnod1 : (append_unique []
      ((((split_chars is_newline text.data).map String.mk).map normalize_name).filter
        (fun x => x ≠ "" ∧ dmem stores x))).Nodup :=
    nodup_append_unique _ [] List.nodup_nil
  have hnod : (append_unique (append_unique []
      ((((split_chars is_newline text.data).map String.mk).map normalize_name).filter
        (fun x => x ≠ "" ∧ dmem stores x))) (py_sorted (dkeys stores))).Nodup :=
    nodup_append_unique _ _ hnod1
  rw [List.perm_ext_iff_of_nodup hnod h]
  intro a
  rw [mem_append_unique, mem_py_sorted]
  constructor
  · rintro (ha | ha)
    · exact hout1 a ha
    · exact ha
  · exact fun ha => Or.inr ha

/-- C5 theorem applied at a concrete input with malformed, duplicate and
    unknown lines. -/
theorem C5_witness :
    List.Perm
      (parse_store_order_text "junk\nWalmart\n Costco \nWalmart\n\n???"
        [("Costco", []), ("Walmart", []), ("Aldi", [])])
      (dkeys [("Costco", ([] : CatMap)), ("Walmart", []), ("Aldi", [])]) :=
  C5_parse_store_order_perm "junk\nWalmart\n Costco \nWalmart\n\n???"
    [("Costco", []), ("Walmart", []), ("Aldi", [])] (by decide)

/-! Claim C6. -/

/-- C6: with the order document absent or malformed, the visit order is the
    fixed default sequence filtered to catalog members, followed by the
    remaining catalog stores in case-insensitive alphabetical order; on the
    catalog with stores ["Zed","Alpha"] this gives ["Alpha","Zed"]. -/
theorem C6_load_store_order (stores : Catalog) (h : (dkeys stores).Nodup) :
    load_store_order none stores
        = DEFAULT_STORE_ORDER.filter (fun s => dmem stores s)
          ++ (py_sorted (dkeys stores)).filter
              (fun s => s ∉ DEFAULT_STORE_ORDER.filter (fun t => dmem stores t))
    ∧ load_store_order none
        [("Zed", [("Uncategorized", [])]), ("Alpha", [("Uncategorized", [])])]
        = ["Alpha", "Zed"] := by
  constructor
  · show append_unique (DEFAULT_STORE_ORDER.filter (fun s => dmem stores s))
        (py_sorted (dkeys stores)) = _
    exact append_unique_eq_append_filter _ _ ((py_sorted_perm _).nodup_iff.mpr h)
  · decide

/-- C6 theorem applied at a concrete catalog. -/
theorem C6_witness :
    load_store_order none [("Zed", [("Uncategorized", [])]), ("Alpha", [("Uncategorized", [])])]
      = ["Alpha", "Zed"] :=
  (C6_load_store_order [("Zed", [("Uncategorized", [])]), ("Alpha", [("Uncategorized", [])])]
    (by decide)).2

/-! Claim C10. -/

/-- C10: addItems changes at most the targeted category of the targeted store
    (names as the code targets them, i.e. after normalization and the
    "Uncategorized" default): every other store keeps its category map, and
    every other category of the targeted store keeps its item list. -/
theorem C10_add_items_frame (stores : Catalog) (sn cn txt : String) :
    (∀ k, k ≠ normalize_name sn →
        dget (add_items stores sn cn txt) k = dget stores k)
    ∧ (∀ k, k ≠ (if normalize_name cn = "" then "Uncategorized" else normalize_name cn) →
        dget ((dget (add_items stores sn cn txt) (normalize_name sn)).getD []) k
          = dget ((dget stores (normalize_name sn)).getD []) k) := by
  cases hg : dget stores (normalize_name sn) with
  | none => simp [add_items, hg]
  | some cm0 =>
    simp only [add_items, hg]
    constructor
    · intro k hk
      exact dget_dset_ne _ _ _ _ hk
    · intro k hk
      rw [dget_dset_self]
      simp only [Option.getD_some]
      rw [dget_dset_ne _ _ _ _ hk]
      by_cases hc : dmem cm0 (if normalize_name cn = "" then "Uncategorized"
          else normalize_name cn) = true
      · rw [if_pos hc]
      · rw [if_neg hc, dget_append]
        simp [dget, Ne.symm hk]

/-- C10 theorem applied at a concrete input: an untouched store keeps its
    category map. -/
theorem C10_witness :
    dget (add_items [("S", [("C", ["Milk"])]), ("T", [("D", ["x"])])] "S" "C" "Eggs") "T"
      = dget [("S", [("C", ["Milk"])]), ("T", [("D", ["x"])])] "T" :=
  (C10_add_items_frame [("S", [("C", ["Milk"])]), ("T", [("D", ["x"])])] "S" "C" "Eggs").1
    "T" (by decide)

/-! Claim C4. -/

/-- C4: for every catalog containing the (normalized) named store, addItems
    leaves the targeted category holding a case-insensitively sorted,
    case-sensitively deduplicated union of its previous items with the
    normalized, non-empty pieces of the input text split on commas and
    newlines (the category starting empty when absent). -/
theorem C4_add_items_result (stores : Catalog) (sn cn txt : String)
    (hs : dmem stores (normalize_name sn) = true) :
    ((category_items (add_items stores sn cn txt) (normalize_name sn)
        (if normalize_name cn = "" then "Uncategorized" else normalize_name cn)).Sorted le_key)
    ∧ (category_items (add_items stores sn cn txt) (normalize_name sn)
        (if normalize_name cn = "" then "Uncategorized" else normalize_name cn)).Nodup
    ∧ (∀ x, x ∈ category_items (add_items stores sn cn txt) (normalize_name sn)
          (if normalize_name cn = "" then "Uncategorized" else normalize_name cn)
        ↔ x ∈ category_items stores (normalize_name sn)
              (if normalize_name cn = "" then "Uncategorized" else normalize_name cn)
          ∨ x ∈ split_items txt) := by
  obtain ⟨cm0, hg⟩ := Option.isSome_iff_exists.mp hs
  simp only [category_items, add_items, hg, Option.getD_some]
  rw [dget_dset_self]
  simp only [Option.getD_some]
  rw [dget_dset_self]
  simp only [Option.getD_some]
  have hex : (dget (if dmem cm0 (if normalize_name cn = "" then "Uncategorized"
        else normalize_name cn) = true then cm0
        else cm0 ++ [((if normalize_name cn = "" then "Uncategorized"
          else normalize_name cn), [])])
      (if normalize_name cn = "" then "Uncategorized" else normalize_name cn)).getD []
      = (dget cm0 (if normalize_name cn = "" then "Uncategorized"
          else normalize_name cn)).getD [] := by
    by_cases hc : dmem cm0 (if normalize_name cn = "" then "Uncategorized"
        else normalize_name cn) = true
    · rw [if_pos hc]
    · rw [if_neg hc, dget_append, dget_eq_none_of_not_dmem hc]
      simp [dget]
  refine ⟨py_sorted_sorted _, (py_sorted_perm _).nodup_iff.mpr (List.nodup_dedup _), ?_⟩
  intro x
  rw [mem_py_sorted]
  unfold py_set_list
  rw [List.mem_dedup, List.mem_append, hex]

/-- C4 theorem applied at a concrete input. -/
theorem C4_witness :
    ((category_items (add_items [("S", [("C", ["Milk"])])] "S" "C" "Eggs, milk\n milk ,")
        "S" "C").Sorted le_key)
    ∧ (category_items (add_items [("S", [("C", ["Milk"])])] "S" "C" "Eggs, milk\n milk ,")
        "S" "C").Nodup
    ∧ (∀ x, x ∈ category_items (add_items [("S", [("C", ["Milk"])])] "S" "C"
          "Eggs, milk\n milk ,") "S" "C"
        ↔ x ∈ category_items [("S", [("C", ["Milk"])])] "S" "C"
          ∨ x ∈ split_items "Eggs, milk\n milk ,") := by
  have h := C4_add_items_result [("S", [("C", ["Milk"])])] "S" "C" "Eggs, milk\n milk ,"
    (by decide)
  simpa using h

/-! Claim C9. -/

/-- C9: every store has at least one category — true of every catalog load
    produces (defaults or converted legacy shapes) and preserved by every
    mutating operation; in particular addStore inserts a single
    "Uncategorized" category and removeCategory never deletes the last one. -/
theorem C9_at_least_one_category (raw : Option (List (String × Payload)))
    (m : Catalog) (sn cn item txt : String) (h : store_inv m) :
    store_inv (load_stores raw)
    ∧ store_inv (add_store m sn)
    ∧ store_inv (add_category m sn cn)
    ∧ store_inv (add_items m sn cn txt)
    ∧ store_inv (remove_item m sn cn item)
    ∧ store_inv (remove_category m sn cn)
    ∧ store_inv (remove_store m sn) := by
  have hconv : ∀ data, store_inv (convert_legacy_shape data) := by
    intro data
    unfold convert_legacy_shape
    refine store_inv_foldl _ ?_ data [] (by intro p hp; cases hp)
    intro acc b hinv
    by_cases hname : normalize_name b.1 = ""
    · simp only [hname, if_pos rfl]
      exact hinv
    · rw [if_neg hname]
      cases hb : b.2 with
      | plist items => exact store_inv_dset hinv (by simp)
      | pdict cats =>
          apply store_inv_dset hinv
          by_cases he : (cats.foldl (fun cm cp =>
              match cp.2 with
              | some items => dset cm (if normalize_name cp.1 = "" then "Uncategorized"
                  else normalize_name cp.1) (_sorted_unique items)
              | none => cm) []).isEmpty = true
          · simp only [he, if_true]
            simp
          · simp only [he, if_false, Bool.false_eq_true]
            intro e
            rw [e] at he
            exact he rfl
      | pother => exact store_inv_dset hinv (by simp)
  have hdefault : store_inv DEFAULT_STORES := by decide
  refine ⟨?_, ?_, ?_, ?_, ?_, ?_, ?_⟩
  · cases raw with
    | none => exact hdefault
    | some data =>
        simp only [load_stores]
        by_cases he : (convert_legacy_shape data).isEmpty = true
        · rw [if_pos he]
          exact hdefault
        · rw [if_neg he]
          exact hconv data
  · simp only [add_store]
    by_cases hc : normalize_name sn ≠ "" ∧ ¬ dmem m (normalize_name sn) = true
    · rw [if_pos hc]
      exact store_inv_dset h (by simp)
    · rw [if_neg hc]
      exact h
  · cases hg : dget m (normalize_name sn) with
    | none => simp only [add_category, hg]; exact h
    | some cm =>
        simp only [add_category, hg]
        by_cases hc : dmem cm (if normalize_name cn = "" then "Uncategorized"
            else normalize_name cn) = true
        · rw [if_pos hc]
          exact h
        · rw [if_neg hc]
          exact store_inv_dset h (by simp)
  · cases hg : dget m (normalize_name sn) with
    | none => simp only [add_items, hg]; exact h
    | some cm0 =>
        simp only [add_items, hg]
        exact store_inv_dset h (dset_ne_nil _ _ _)
  · cases hg : dget m sn with
    | none => simp only [remove_item, hg]; exact h
    | some cm =>
        cases hgc : dget cm cn with
        | none => simp only [remove_item, hg, hgc]; exact h
        | some items =>
            simp only [remove_item, hg, hgc]
            exact store_inv_dset h (dset_ne_nil _ _ _)
  · cases hg : dget m sn with
    | none => simp only [remove_category, hg]; exact h
    | some cm =>
        simp only [remove_category, hg]
        by_cases hc : dmem cm cn = true
        · rw [if_pos hc]
          by_cases hlen : cm.length > 1
          · rw [if_pos hlen]
            exact store_inv_dset h (eraseP_ne_nil _ _ hlen)
          · rw [if_neg hlen]
            exact store_inv_dset h (by simp)
        · rw [if_neg hc]
          exact h
  · simp only [remove_store]
    by_cases hc : dmem m sn = true
    · rw [if_pos hc]
      intro p hp
      exact h p ((List.eraseP_sublist _).subset hp)
    · rw [if_neg hc]
      exact h

/-- C9 theorem applied at a concrete catalog and inputs. -/
theorem C9_witness :
    store_inv (load_stores none)
    ∧ store_inv (add_store [("S", [("C", ["Milk"])])] "S")
    ∧ store_inv (add_category [("S", [("C", ["Milk"])])] "S" "C")
    ∧ store_inv (add_items [("S", [("C", ["Milk"])])] "S" "C" "Eggs")
    ∧ store_inv (remove_item [("S", [("C", ["Milk"])])] "S" "C" "Milk")
    ∧ store_inv (remove_category [("S", [("C", ["Milk"])])] "S" "C")
    ∧ store_inv (remove_store [("S", [("C", ["Milk"])])] "S") :=
  C9_at_least_one_category none [("S", [("C", ["Milk"])])] "S" "C" "Milk" "Eggs" (by decide)

/-! Claim C8. -/

/-- C8: the scenario selection {"Costco": {"Dairy": ["Milk"]}, "Walmart":
    {"Produce": []}} with order ["Walmart","Costco"] formats to a block for
    Costco only — Walmart is skipped as empty — with header line *Costco*, an
    underline of clamp(len("Costco")+2, 6, 22) = 8 separator characters, and
    exactly one bullet line of the checkbox glyph, a space and Milk. -/
theorem C8_format_scenario (today : String) :
    format_lines [("Costco", [("Dairy", ["Milk"])]), ("Walmart", [("Produce", [])])]
        ["Walmart", "Costco"] today
      = ["Shopping List - " ++ today, "", "*Costco*", underline_for "Costco",
         CHECKBOX_BULLET ++ " Milk", ""]
    ∧ (underline_for "Costco").length = 8
    ∧ underline_for "Costco" = ⟨List.replicate 8 UNDERLINE_CHAR⟩ := by
  refine ⟨?_, by decide, by decide⟩
  have hrest : ((ordered_stores ["Walmart", "Costco"]
      ([("Costco", [("Dairy", ["Milk"])]), ("Walmart", [("Produce", [])])] : Selection)).map
      (fun store => store_block store
        ((dget ([("Costco", [("Dairy", ["Milk"])]), ("Walmart", [("Produce", [])])] : Selection)
          store).getD []))).flatten
      = ["*Costco*", underline_for "Costco", CHECKBOX_BULLET ++ " Milk", ""] := by decide
  unfold format_lines
  rw [hrest]

/-- C8 theorem applied at a concrete date. -/
theorem C8_witness :
    format_lines [("Costco", [("Dairy", ["Milk"])]), ("Walmart", [("Produce", [])])]
        ["Walmart", "Costco"] "Feb 21, 2026"
      = ["Shopping List - " ++ "Feb 21, 2026", "", "*Costco*", underline_for "Costco",
         CHECKBOX_BULLET ++ " Milk", ""]
    ∧ (underline_for "Costco").length = 8
    ∧ underline_for "Costco" = ⟨List.replicate 8 UNDERLINE_CHAR⟩ :=
  C8_format_scenario "Feb 21, 2026"

/-! Claim C3. -/

theorem dget_setdefault_fold {β : Type} (L : List (String × β)) :
    ∀ (acc : List (String × List String)) (k : String),
      dget (L.foldl (fun acc p => setdefault acc p.1 []) acc) k
        = (dget acc k).or (if k ∈ dkeys L then some [] else none) := by
  induction L with
  | nil => intro acc k; simp [dkeys]
  | cons p L ih =>
    intro acc k
    simp only [List.foldl_cons]
    rw [ih]
    by_cases hk : p.1 = k
    · subst hk
      rw [dget_setdefault_self]
      have hmem : p.1 ∈ dkeys (p :: L) := List.mem_map.mpr ⟨p, List.mem_cons_self _ _, rfl⟩
      rw [if_pos hmem]
      cases dget acc p.1 <;> simp
    · rw [dget_setdefault_ne _ _ _ _ (fun e => hk e.symm)]
      have hiff : (k ∈ dkeys (p :: L)) ↔ (k ∈ dkeys L) := by
        simp only [dkeys, List.map_cons, List.mem_cons]
        exact or_iff_right (Ne.symm hk)
      by_cases hL : k ∈ dkeys L
      · rw [if_pos hL, if_pos (hiff.mpr hL)]
      · rw [if_neg hL, if_neg (fun hx => hL (hiff.mp hx))]

/-- What one store's reconciled category map holds at each key: catalog
    categories map to the previously selected set (empty when new), everything
    else is gone. -/
theorem dget_reconcile_cats (sel_cm : List (String × List String)) (cat_cm : CatMap)
    (c : String) :
    dget (reconcile_cats sel_cm cat_cm) c
      = if dmem cat_cm c = true then some ((dget sel_cm c).getD []) else none := by
  unfold reconcile_cats
  rw [dget_filter_key]
  by_cases hc : dmem cat_cm c = true
  · rw [if_pos hc, if_pos hc, dget_setdefault_fold]
    rw [if_pos (dmem_iff_mem_dkeys.mp hc)]
    cases dget sel_cm c <;> simp
  · rw [if_neg hc, if_neg hc]

/-- The per-store reconciliation step of app.py lines 378–384. -/
def reconcile_step (sel : Selection) (sp : String × CatMap) : Selection :=
  dset (setdefault sel sp.1 []) sp.1
    (reconcile_cats ((dget (setdefault sel sp.1 []) sp.1).getD []) sp.2)

theorem reconcile_selection_eq_foldl (sel : Selection) (stores : Catalog) :
    reconcile_selection sel stores
      = stores.foldl reconcile_step (sel.filter (fun p => dmem stores p.1)) := rfl

theorem dget_reconcile_step_self (sel : Selection) (sp : String × CatMap) :
    dget (reconcile_step sel sp) sp.1
      = some (reconcile_cats ((dget sel sp.1).getD []) sp.2) := by
  unfold reconcile_step
  rw [dget_dset_self, dget_setdefault_self]
  simp

theorem dget_reconcile_step_ne (sel : Selection) (sp : String × CatMap) {k : String}
    (h : k ≠ sp.1) : dget (reconcile_step sel sp) k = dget sel k := by
  unfold reconcile_step
  rw [dget_dset_ne _ _ _ _ h, dget_setdefault_ne _ _ _ _ h]

theorem dget_reconcile_foldl_not_mem :
    ∀ (L : List (String × CatMap)) (acc : Selection) (k : String),
      k ∉ dkeys L → dget (L.foldl reconcile_step acc) k = dget acc k
  | [], _, _, _ => rfl
  | p :: L, acc, k, hk => by
    have hne : k ≠ p.1 := fun e => hk (List.mem_map.mpr ⟨p, List.mem_cons_self _ _, e.symm⟩)
    have hkL : k ∉ dkeys L := fun h => hk (by
      simp only [dkeys, List.map_cons, List.mem_cons]
      exact Or.inr h)
    simp only [List.foldl_cons]
    rw [dget_reconcile_foldl_not_mem L _ k hkL, dget_reconcile_step_ne _ _ hne]

theorem dget_reconcile_foldl_mem :
    ∀ (L : List (String × CatMap)) (acc : Selection) (k : String) (cm : CatMap),
      (dkeys L).Nodup → dget L k = some cm →
      dget (L.foldl reconcile_step acc) k
        = some (reconcile_cats ((dget acc k).getD []) cm)
  | [], _, _, _, _, hg => by cases hg
  | p :: L, acc, k, cm, hn, hg => by
    simp only [List.foldl_cons]
    by_cases hp : p.1 = k
    · have hcm : cm = p.2 := by
        rw [show dget (p :: L) k = if p.1 = k then some p.2 else dget L k from rfl,
          if_pos hp] at hg
        exact (Option.some.inj hg).symm
      have hkL : k ∉ dkeys L := by
        intro h
        exact (List.nodup_cons.mp (by simpa [dkeys] using hn)).1 (hp ▸ h)
      rw [dget_reconcile_foldl_not_mem L _ k hkL]
      rw [show (k : String) = p.1 from hp.symm, dget_reconcile_step_self, hcm]
    · have hg' : dget L k = some cm := by
        rw [show dget (p :: L) k = if p.1 = k then some p.2 else dget L k from rfl,
          if_neg hp] at hg
        exact hg
      have hn' : (dkeys L).Nodup := (List.nodup_cons.mp (by simpa [dkeys] using hn)).2
      rw [dget_reconcile_foldl_mem L _ k cm hn' hg',
        dget_reconcile_step_ne _ _ (fun e => hp e.symm)]

/-- Reconciliation removes every selection entry for a store absent from the
    catalog. -/
theorem dget_reconcile_selection_of_none (sel : Selection) (stores : Catalog) {k : String}
    (h : dget stores k = none) :
    dget (reconcile_selection sel stores) k = none := by
  rw [reconcile_selection_eq_foldl]
  have hk : k ∉ dkeys stores := by
    intro hmem
    have := dmem_iff_mem_dkeys.mpr hmem
    rw [dmem, h] at this
    cases this
  rw [dget_reconcile_foldl_not_mem stores _ k hk, dget_filter_key]
  rw [if_neg (by rw [dmem, h]; intro hx; cases hx)]

/-- Reconciliation maps every catalog store to its reconciled category map,
    seeded from whatever the session had selected for that store. -/
theorem dget_reconcile_selection_of_some (sel : Selection) (stores : Catalog) {k : String}
    {cm : CatMap} (hn : (dkeys stores).Nodup) (h : dget stores k = some cm) :
    dget (reconcile_selection sel stores) k
      = some (reconcile_cats ((dget sel k).getD []) cm) := by
  rw [reconcile_selection_eq_foldl]
  rw [dget_reconcile_foldl_mem stores _ k cm hn h, dget_filter_key]
  rw [if_pos (by rw [dmem, h]; rfl)]

/-- C3 counterexample: reconciliation does not prune ITEMS.  Catalog
    {"S": {"C": []}} with selection {"S": {"C": {"Ghost"}}}: after the
    reconciliation block the selected item "Ghost" is still recorded under
    S/C although the catalog's item list there is empty. -/
theorem C3_counterexample :
    reconcile_selection [("S", [("C", ["Ghost"])])] [("S", [("C", [])])]
        = [("S", [("C", ["Ghost"])])]
    ∧ "Ghost" ∈ (dget ((dget (reconcile_selection [("S", [("C", ["Ghost"])])]
          [("S", [("C", [])])]) "S").getD []) "C").getD []
    ∧ "Ghost" ∉ category_items [("S", [("C", [])])] "S" "C" := by decide

/-- C3 (amended): after the reconciliation step the selection agrees with the
    catalog at the store and category levels — every selection store exists in
    the catalog, every catalog store has an entry, and a store's selection
    categories are exactly its catalog categories — while the per-category
    item sets of surviving categories pass through unchanged, so item-level
    membership in the catalog is NOT enforced. -/
theorem C3_amended_reconcile (sel : Selection) (stores : Catalog)
    (hn : (dkeys stores).Nodup) :
    (∀ k, dmem (reconcile_selection sel stores) k = true → dmem stores k = true)
    ∧ (∀ k, dmem stores k = true → dmem (reconcile_selection sel stores) k = true)
    ∧ (∀ k cm sel_cm, dget stores k = some cm →
        dget (reconcile_selection sel stores) k = some sel_cm →
        (∀ c, dmem sel_cm c = true → dmem cm c = true)
        ∧ (∀ c, dmem cm c = true → dmem sel_cm c = true))
    ∧ (∀ k cm c, dget stores k = some cm → dmem cm c = true →
        (dget ((dget (reconcile_selection sel stores) k).getD []) c).getD []
          = (dget ((dget sel k).getD []) c).getD []) := by
  refine ⟨?_, ?_, ?_, ?_⟩
  · intro k hk
    by_cases hs : dmem stores k = true
    · exact hs
    · rw [dmem, dget_reconcile_selection_of_none sel stores
        (dget_eq_none_of_not_dmem hs)] at hk
      cases hk
  · intro k hk
    obtain ⟨cm, hg⟩ := Option.isSome_iff_exists.mp hk
    rw [dmem, dget_reconcile_selection_of_some sel stores hn hg]
    rfl
  · intro k cm sel_cm hg hr
    rw [dget_reconcile_selection_of_some sel stores hn hg] at hr
    have hsel : sel_cm = reconcile_cats ((dget sel k).getD []) cm :=
      (Option.some.inj hr).symm
    subst hsel
    constructor
    · intro c hc
      by_cases hcc : dmem cm c = true
      · exact hcc
      · rw [dmem, dget_reconcile_cats, if_neg hcc] at hc
        cases hc
    · intro c hc
      rw [dmem, dget_reconcile_cats, if_pos hc]
      rfl
  · intro k cm c hg hc
    rw [dget_reconcile_selection_of_some sel stores hn hg]
    simp only [Option.getD_some]
    rw [dget_reconcile_cats, if_pos hc]
    simp

/-- C3 amended theorem applied at a concrete selection and catalog. -/
theorem C3_amended_witness :
    dmem (reconcile_selection [("Gone", [("C", ["x"])]), ("S", [("C", ["Ghost"])])]
        [("S", [("C", [])]), ("T", [("D", ["b"])])]) "T" = true :=
  (C3_amended_reconcile [("Gone", [("C", ["x"])]), ("S", [("C", ["Ghost"])])]
      [("S", [("C", [])]), ("T", [("D", ["b"])])] (by decide)).2.1 "T" (by decide)

/-! Claim C7. -/

theorem store_block_of_empty {s : String} {cm : CatMap}
    (h : _sorted_unique (flatten_store cm) = []) : store_block s cm = [] := by
  simp only [store_block]
  rw [if_pos h]

theorem header_mem_store_block {s : String} {cm : CatMap}
    (h : _sorted_unique (flatten_store cm) ≠ []) :
    ("*" ++ s ++ "*") ∈ store_block s cm := by
  simp only [store_block]
  rw [if_neg h]
  exact List.mem_append_left _ (List.mem_cons_self _ _)

theorem mem_store_block_shapes {l s : String} {cm : CatMap} (h : l ∈ store_block s cm) :
    l = "*" ++ s ++ "*" ∨ l = underline_for s
      ∨ (∃ it, l = CHECKBOX_BULLET ++ " " ++ it) ∨ l = "" := by
  simp only [store_block] at h
  by_cases he : _sorted_unique (flatten_store cm) = []
  · rw [if_pos he] at h
    cases h
  · rw [if_neg he] at h
    rcases List.mem_append.mp h with h | h
    · rcases List.mem_cons.mp h with h1 | h
      · exact Or.inl h1
      · rcases List.mem_cons.mp h with h1 | h
        · exact Or.inr (Or.inl h1)
        · obtain ⟨it, _, he2⟩ := List.mem_map.mp h
          exact Or.inr (Or.inr (Or.inl ⟨it, he2.symm⟩))
    · rw [List.mem_singleton] at h
      exact Or.inr (Or.inr (Or.inr h))

theorem mem_format_lines {l : String} (sel : Selection) (order : List String)
    (today : String) :
    l ∈ format_lines sel order today
      ↔ l = "Shopping List - " ++ today ∨ l = ""
        ∨ ∃ s, s ∈ ordered_stores order sel ∧ l ∈ store_block s ((dget sel s).getD []) := by
  simp only [format_lines, List.mem_cons, List.mem_flatten, List.mem_map]
  constructor
  · rintro (h | h | ⟨blk, ⟨s, hs, rfl⟩, hl⟩)
    · exact Or.inl h
    · exact Or.inr (Or.inl h)
    · exact Or.inr (Or.inr ⟨s, hs, hl⟩)
  · rintro (h | h | ⟨s, hs, hl⟩)
    · exact Or.inl h
    · exact Or.inr (Or.inl h)
    · exact Or.inr (Or.inr ⟨_, ⟨s, hs, rfl⟩, hl⟩)

theorem header_data (s : String) : ("*" ++ s ++ "*").data = '*' :: (s.data ++ ['*']) := rfl

theorem header_inj {s t : String} (h : "*" ++ t ++ "*" = "*" ++ s ++ "*") : t = s := by
  have hd := congrArg String.data h
  rw [header_data, header_data] at hd
  injection hd with _ h2
  exact String.ext (List.append_cancel_right h2)

theorem header_ne_date (s today : String) :
    "*" ++ s ++ "*" ≠ "Shopping List - " ++ today := by
  intro h
  have hd := congrArg String.data h
  rw [header_data,
    show ("Shopping List - " ++ today).data
      = 'S' :: ("hopping List - ".data ++ today.data) from rfl] at hd
  injection hd with h1 _
  exact absurd h1 (by decide)

theorem header_ne_empty (s : String) : "*" ++ s ++ "*" ≠ "" := by
  intro h
  have hd := congrArg String.data h
  rw [header_data] at hd
  cases hd

theorem header_ne_underline (s t : String) : "*" ++ s ++ "*" ≠ underline_for t := by
  intro h
  have hd := congrArg String.data h
  rw [header_data,
    show (underline_for t).data
      = List.replicate (max 6 (min 22 (t.length + 2))) UNDERLINE_CHAR from rfl] at hd
  have h6 : max 6 (min 22 (t.length + 2)) = (max 6 (min 22 (t.length + 2)) - 1) + 1 := by
    omega
  rw [h6, List.replicate_succ] at hd
  injection hd with h1 _
  exact absurd h1 (by decide)

theorem header_ne_item (s it : String) : "*" ++ s ++ "*" ≠ CHECKBOX_BULLET ++ " " ++ it := by
  intro h
  have hd := congrArg String.data h
  rw [header_data,
    show (CHECKBOX_BULLET ++ " " ++ it).data = '☐' :: (' ' :: it.data) from rfl] at hd
  injection hd with h1 _
  exact absurd h1 (by decide)

/-- C7: the formatter emits no header block for a store whose flattened,
    normalized item set is empty, and whenever some selected item normalizes
    to a non-empty name the output carries the date line and at least one
    store header block. -/
theorem C7_formatter_skips_empty_stores (sel : Selection) (order : List String)
    (today : String) :
    (∀ s cm, dget sel s = some cm → _sorted_unique (flatten_store cm) = [] →
        ("*" ++ s ++ "*") ∉ format_lines sel order today)
    ∧ ((∃ s cm, dget sel s = some cm ∧ ∃ q ∈ cm, ∃ x ∈ q.2, normalize_name x ≠ "") →
        ("Shopping List - " ++ today) ∈ format_lines sel order today
        ∧ ∃ s, ("*" ++ s ++ "*") ∈ format_lines sel order today) := by
  constructor
  · intro s cm hg hemp hmem
    rw [mem_format_lines] at hmem
    rcases hmem with h | h | ⟨t, _, hl⟩
    · exact header_ne_date s today h
    · exact header_ne_empty s h
    · rcases mem_store_block_shapes hl with h1 | h1 | ⟨it, h1⟩ | h1
      · have hst : s = t := header_inj h1
        subst hst
        rw [hg] at hl
        simp only [Option.getD_some] at hl
        rw [store_block_of_empty hemp] at hl
        exact List.not_mem_nil _ hl
      · exact header_ne_underline s t h1
      · exact header_ne_item s it h1
      · exact header_ne_empty s h1
  · rintro ⟨s, cm, hg, q, hq, x, hx, hnx⟩
    constructor
    · rw [mem_format_lines]
      exact Or.inl rfl
    · refine ⟨s, ?_⟩
      rw [mem_format_lines]
      refine Or.inr (Or.inr ⟨s, mem_ordered_stores (by rw [dmem, hg]; rfl) order, ?_⟩)
      rw [hg]
      simp only [Option.getD_some]
      apply header_mem_store_block
      intro he
      have hxf : x ∈ flatten_store cm := mem_flatten_store.mpr ⟨q, hq, hx⟩
      have hmem2 : normalize_name x ∈ _sorted_unique (flatten_store cm) := by
        rw [mem_sorted_unique]
        exact ⟨List.mem_map.mpr ⟨x, hxf, rfl⟩, hnx⟩
      rw [he] at hmem2
      exact List.not_mem_nil _ hmem2

/-- C7 theorem applied at a concrete selection: nonempty selection gives the
    date line and a store header. -/
theorem C7_witness :
    ("Shopping List - " ++ "Feb 21, 2026") ∈ format_lines
        [("Costco", [("Dairy", ["Milk"])])] ["Costco"] "Feb 21, 2026"
    ∧ ∃ s, ("*" ++ s ++ "*") ∈ format_lines [("Costco", [("Dairy", ["Milk"])])]
        ["Costco"] "Feb 21, 2026" :=
  (C7_formatter_skips_empty_stores [("Costco", [("Dairy", ["Milk"])])] ["Costco"]
      "Feb 21, 2026").2
    ⟨"Costco", [("Dairy", ["Milk"])], by decide,
      ("Dairy", ["Milk"]), by decide, "Milk", by decide, by decide⟩

end App
